import Mathlib

/-!
Verification of the JSLint VS Code extension's validation pipeline
(`src/jslint/extension.ts`): configuration resolution (`OptionsResolver`,
`readOptions`, `readJSLintFile`, `stripComments`), exclusion matching
(`FileMatcher`), and the diagnostic mapping (`makeDiagnostic`,
`getSeverity`, `lintContent`, `validate`).

The TypeScript source is shallowly embedded: JSON-like dynamic values
become the inductive `JSVal` (with JavaScript truthiness), the file system
becomes an association list from path to (already parsed) content,
stateful classes become records with explicit state passing, and thrown
JavaScript exceptions become `Option`/`Except` failures.  Recursions that
are unbounded in JavaScript (directory walks, `extends` chains, regex
scanning) take an explicit fuel argument chosen large enough to make fuel
exhaustion coincide exactly with divergence (infinite recursion) in the
original program.
-/

set_option maxHeartbeats 4000000
set_option maxRecDepth 8192

/-- Model of a dynamically typed JavaScript/JSON value as it appears in the
extension: `undef` models `undefined`, `nullv` models `null`; objects are
association lists in property-insertion order (JavaScript string-keyed
objects preserve insertion order). -/
inductive JSVal where
  | undef : JSVal
  | nullv : JSVal
  | bool : Bool → JSVal
  | num : Int → JSVal
  | str : String → JSVal
  | arr : List JSVal → JSVal
  | obj : List (String × JSVal) → JSVal

/-- JavaScript truthiness of a `JSVal`, as used by the source's bare
`if (x)` / `x && y` tests. -/
def JSVal.truthy : JSVal → Bool
  | JSVal.undef => false
  | .nullv => false
  | .bool b => b
  | .num n => n ≠ 0
  | .str s => s ≠ ""
  | .arr _ => true
  | .obj _ => true

/-- Property read `v.k`: on an object, the bound value (first binding wins,
matching unique-key JavaScript objects); otherwise `undefined`.  (Reading a
property of `null`/`undefined` throws in JavaScript; the embedding returns
`undefined` there, and every theorem below only reads properties of
objects.) -/
def JSVal.getField : JSVal → String → JSVal
  | .obj fields, k => ((fields.find? (fun kv => kv.1 = k)).map (fun kv => kv.2)).getD JSVal.undef
  | _, _ => JSVal.undef

/-- The `delete v.k` statement: removes the binding from an object,
anything else unchanged. -/
def JSVal.deleteField : JSVal → String → JSVal
  | .obj fields, k => .obj (fields.filter (fun kv => kv.1 ≠ k))
  | v, _ => v

/-- Association-list lookup on an object's field list. -/
def lookupField (fields : List (String × JSVal)) (k : String) : Option JSVal :=
  (fields.find? (fun kv => kv.1 = k)).map (fun kv => kv.2)

/-- Assignment `o[k] = v` on an object's field list: overwrite in place if
the key is present, else append (JavaScript insertion order). -/
def setField (fields : List (String × JSVal)) (k : String) (v : JSVal) : List (String × JSVal) :=
  if (fields.find? (fun kv => kv.1 = k)).isSome then
    fields.map (fun kv => if kv.1 = k then (k, v) else kv)
  else fields ++ [(k, v)]

/-- JavaScript `Array.prototype.concat`: concatenating an array spreads its
elements, concatenating any other value appends it as a single element. -/
def concatJS (a : List JSVal) : JSVal → List JSVal
  | .arr xs => a ++ xs
  | v => a ++ [v]

/- -------------------------------------------------------------------- -/
/- Path model (Node `path.posix`)                                        -/
/- -------------------------------------------------------------------- -/

/-- Node `path.dirname` (posix): scan backwards over indices ≥ 1, skip the
run of trailing slashes, then the run of non-slashes; the slash found there
(if any) ends the directory part.  Degenerate cases follow Node: empty or
slashless input gives `"."`, a rooted input with no further slash gives
`"/"`, and `dirname "//a" = "//"`. -/
def dirname (p : String) : String :=
  match p.data with
  | [] => "."
  | c0 :: t =>
    let rt := ((t.reverse).dropWhile (fun c => c = '/')).dropWhile (fun c => c ≠ '/')
    if rt.isEmpty then (if c0 = '/' then "/" else ".")
    else if c0 = '/' ∧ rt.length = 1 then "//"
    else ⟨(c0 :: t).take rt.length⟩

/-- Node `path.join(dir, name)` restricted to the shapes the extension
uses: `dir` is an already normalized directory (absolute, `"."`, or a home
directory) and `name` a plain file name, so joining is concatenation with a
single separator (Node's general normalization pass is the identity on
these inputs). -/
def pathJoin (dir name : String) : String :=
  if dir = "" then name
  else if dir = "." then name
  else if dir.data.getLast? = some '/' then dir ++ name
  else dir ++ "/" ++ name

/-- Split a character list at a separator, in the sense of JavaScript
`String.prototype.split` (an empty input yields one empty piece). -/
def splitCharList (sep : Char) : List Char → List (List Char)
  | [] => [[]]
  | c :: r =>
    match splitCharList sep r with
    | [] => [[c]]
    | h :: t => if c = sep then [] :: h :: t else (c :: h) :: t

/-- Segment-normalization core of Node `path.posix.resolve` on an absolute
path: drop empty and `"."` segments, let `".."` pop (clamping at the
root). -/
def normSegs (acc : List (List Char)) : List (List Char) → List (List Char)
  | [] => acc.reverse
  | s :: rest =>
    if s = [] ∨ s = ['.'] then normSegs acc rest
    else if s = ['.', '.'] then normSegs acc.tail rest
    else normSegs (s :: acc) rest

/-- Join normalized segments back into an absolute path string. -/
def joinSegsAbs (segs : List (List Char)) : String :=
  ⟨segs.foldl (fun acc s => acc ++ '/' :: s) []⟩

/-- Node `path.resolve(dir, rel)` for an absolute `dir` (the call site
resolves an `extends` reference against the directory of the config file,
which is absolute): an absolute `rel` stands alone, otherwise it is
appended to `dir`; the result is normalized. -/
def resolvePath (dir rel : String) : String :=
  let p := if rel.data.head? = some '/' then rel else dir ++ "/" ++ rel
  joinSegsAbs (normSegs [] (splitCharList '/' p.data))

/- -------------------------------------------------------------------- -/
/- Glob matching (model of the `minimatch` dependency)                   -/
/- -------------------------------------------------------------------- -/

/-- Within-segment glob matching with `*` (any run, not crossing a
separator — separators are handled at the segment level), `?` (one
character) and literals; fueled so that the definition is structural and
computes by `rfl`.  Each recursive call shrinks `ps.length + cs.length`,
so fuel `ps.length + cs.length + 1` is always sufficient. -/
def matchSegF : Nat → List Char → List Char → Bool
  | 0, ps, cs => ps.isEmpty && cs.isEmpty
  | fuel+1, ps, cs =>
    match ps, cs with
    | [], [] => true
    | '*' :: ps2, cs =>
      matchSegF fuel ps2 cs ||
        (match cs with
         | [] => false
         | _ :: cs2 => matchSegF fuel ('*' :: ps2) cs2)
    | '?' :: ps2, _ :: cs2 => matchSegF fuel ps2 cs2
    | p :: ps2, c :: cs2 => p = c && matchSegF fuel ps2 cs2
    | _, _ => false

/-- Glob matching of a single path segment. -/
def matchSeg (ps cs : List Char) : Bool :=
  matchSegF (ps.length + cs.length + 1) ps cs

/-- Segment-level glob matching: the pattern segment `**` (globstar)
matches zero or more whole path segments, any other pattern segment must
match the corresponding path segment.  Fueled like `matchSegF`. -/
def matchSegsF : Nat → List (List Char) → List (List Char) → Bool
  | 0, ps, ss => ps.isEmpty && ss.isEmpty
  | fuel+1, ps, ss =>
    match ps, ss with
    | [], [] => true
    | ['*', '*'] :: ps2, ss =>
      matchSegsF fuel ps2 ss ||
        (match ss with
         | [] => false
         | _ :: ss2 => matchSegsF fuel (['*', '*'] :: ps2) ss2)
    | p :: ps2, s :: ss2 => matchSeg p s && matchSegsF fuel ps2 ss2
    | _, _ => false

/-- Model of `minimatch(path, pattern)` for the shell-glob conventions the
spec names, restricted to `*`, `**`, `?` and literals (character classes
are not exercised by any claim): both strings are split on `/` and matched
segment-wise. -/
def minimatch (path pattern : String) : Bool :=
  let ps := splitCharList '/' pattern.data
  let ss := splitCharList '/' path.data
  matchSegsF (ps.length + ss.length + 1) ps ss

/- -------------------------------------------------------------------- -/
/- Upward file search (`locateFile`, extension.ts lines 138-149)         -/
/- -------------------------------------------------------------------- -/

/-- Truthiness of a nullable JavaScript string (`null`/`undefined`/`""`
are falsy). -/
def strTruthy : Option String → Bool
  | some s => s ≠ ""
  | none => false

/-- `locateFile(directory, fileName)`: check `join(directory, fileName)`,
then walk to `path.dirname` until the parent equals the directory (the
filesystem root); `ex` is the `fs.existsSync` of the modeled file system.
The do-while loop checks the root directory exactly once.  Fuel bounds the
walk; `p.length + 2` steps always reach the fixpoint of `dirname`. -/
def locateFile (ex : String → Bool) : Nat → String → String → Option String
  | 0, _, _ => none
  | fuel+1, directory, fileName =>
    let location := pathJoin directory fileName
    if ex location then some location
    else
      let parent := dirname directory
      if parent = directory then none
      else locateFile ex fuel parent fileName

/-- Default fuel for `locateFile` walks starting from `p`: every `dirname`
step either shortens the path or reaches a fixpoint within one extra step. -/
def locFuel (p : String) : Nat := p.length + 2

/-- Specification-side ancestor chain: the directory itself, then its
parents up to the filesystem root (the fixpoint of `dirname`). -/
def ancestorChain : Nat → String → List String
  | 0, _ => []
  | fuel+1, dir =>
    dir :: (if dirname dir = dir then [] else ancestorChain fuel (dirname dir))

/-- Specification-side "nearest ancestor containing `name`": first hit of
an existence test along the ancestor chain. -/
def specNearestFile (ex : String → Bool) (fuel : Nat) (startDir : String) (name : String) :
    Option String :=
  ((ancestorChain fuel startDir).map (fun d => pathJoin d name)).find? ex

/- -------------------------------------------------------------------- -/
/- Comment stripping (`stripComments`, extension.ts lines 197-224)       -/
/- -------------------------------------------------------------------- -/

/-- Match the tail of a quoted-string alternative of the `stripComments`
regular expression, after the opening quote `q`; the two alternatives are
`"(?:[^\\"]*(?:\\.)?)*"` and its single-quote twin.  A backslash must be
followed by a character that `.` matches (so not a line terminator, and
not end of input); the first unescaped `q` closes the string.  Returns the
consumed content and the rest of the input, or `none` when the alternative
fails at this position. -/
def strBody (q : Char) : List Char → Option (List Char × List Char)
  | [] => none
  | c :: r =>
    if c = q then some ([], r)
    else if c = '\\' then
      match r with
      | [] => none
      | c2 :: r2 =>
        if c2 = '\n' ∨ c2 = '\r' then none
        else (strBody q r2).map (fun p => (c :: c2 :: p.1, p.2))
    else (strBody q r).map (fun p => (c :: p.1, p.2))

/-- Match the tail of the block-comment alternative `\/\*(?:\r?\n|.)*?\*\/`
after the opening `/*`: lazily, at each position first try the closing
`*/`, else consume `\r\n`, `\n`, or (via `.`, which in JavaScript does not
match `\n` or `\r`) any other character.  A lone `\r` makes the
alternative fail.  Returns the rest of the input after `*/`. -/
def blockBody : List Char → Option (List Char)
  | [] => none
  | c :: r =>
    if c = '*' ∧ r.head? = some '/' then some r.tail
    else if c = '\r' ∧ r.head? ≠ some '\n' then none
    else blockBody r

/-- Match the body of the line-comment alternative
`\/{2,}.*?(?:(?:\r?\n)|$)` after the slashes: the lazy body stops at the
first `\r?\n` terminator or at end of input; a lone `\r` (which neither
`.` nor the terminator can consume) makes the alternative fail.  Returns
the matched terminator (`[]`, `['\n']` or `['\r','\n']` — exactly what
the replacement callback keeps) and the rest of the input. -/
def lineBody : List Char → Option (List Char × List Char)
  | [] => some ([], [])
  | c :: r =>
    if c = '\n' then some (['\n'], r)
    else if c = '\r' then
      (if r.head? = some '\n' then some (['\r', '\n'], r.tail) else none)
    else lineBody r

/-- Global-replace scan of the `stripComments` regular expression: at each
position try, in order, the two string alternatives (kept verbatim), the
block comment (replaced by nothing) and the line comment (replaced by its
matched terminator, which is what the source's callback computes from the
last two characters of the match); when no alternative matches, emit one
character and continue — the JavaScript regex engine's advance-by-one.
Each recursive call strictly shrinks the input, so fuel equal to the input
length is always sufficient. -/
def scan : Nat → List Char → List Char
  | 0, cs => cs
  | _+1, [] => []
  | fuel+1, c :: rest =>
    if c = '"' ∨ c = '\'' then
      match strBody c rest with
      | some (content, r2) => c :: (content ++ c :: scan fuel r2)
      | none => c :: scan fuel rest
    else if c = '/' ∧ rest.head? = some '*' then
      match blockBody rest.tail with
      | some r3 => scan fuel r3
      | none => c :: scan fuel rest
    else if c = '/' ∧ rest.head? = some '/' then
      match lineBody (rest.dropWhile (fun x => x = '/')) with
      | some (term, r3) => term ++ scan fuel r3
      | none => c :: scan fuel rest
    else c :: scan fuel rest

/-- `stripComments(content)`: strip relaxed-JSON comments as the source's
single global regex replace does. -/
def stripComments (content : String) : String :=
  ⟨scan content.data.length content.data⟩

/- -------------------------------------------------------------------- -/
/- A small model of `JSON.parse`                                         -/
/- -------------------------------------------------------------------- -/

/-- Skip JSON whitespace. -/
def skipWs (cs : List Char) : List Char :=
  cs.dropWhile (fun c => c = ' ' || c = '\n' || c = '\t' || c = '\r')

/-- Parse the body of a JSON string after the opening quote, with the
common escapes; returns the decoded content and the rest. -/
def parseJStringBody : List Char → Option (List Char × List Char)
  | [] => none
  | '"' :: r => some ([], r)
  | '\\' :: [] => none
  | '\\' :: c :: r =>
    (if c = '"' then some '"'
     else if c = '\\' then some '\\'
     else if c = '/' then some '/'
     else if c = 'n' then some '\n'
     else if c = 't' then some '\t'
     else if c = 'r' then some '\r'
     else none).bind
      (fun e => (parseJStringBody r).map (fun p => (e :: p.1, p.2)))
  | c :: r => (parseJStringBody r).map (fun p => (c :: p.1, p.2))

/-- Parse a nonempty digit run into a natural number. -/
def parseNatCore : List Char → Option (Nat × List Char)
  | cs =>
    let digits := cs.takeWhile (fun c => c.isDigit)
    if digits.isEmpty then none
    else some (digits.foldl (fun acc c => acc * 10 + (c.toNat - '0'.toNat)) 0,
               cs.dropWhile (fun c => c.isDigit))

/-- Parse a scalar JSON value (integer or string) — the value forms that
occur in the configuration examples considered here. -/
def parseScalar : List Char → Option (JSVal × List Char)
  | '"' :: r => (parseJStringBody r).map (fun p => (JSVal.str ⟨p.1⟩, p.2))
  | '-' :: r => (parseNatCore r).map (fun p => (JSVal.num (-(p.1 : Int)), p.2))
  | cs => (parseNatCore cs).map (fun p => (JSVal.num (p.1 : Int), p.2))

/-- Parse the members of a flat JSON object after the opening brace. -/
def parseMembers : Nat → List Char → List (String × JSVal) →
    Option (List (String × JSVal) × List Char)
  | 0, _, _ => none
  | fuel+1, cs, acc =>
    match skipWs cs with
    | '"' :: r =>
      match parseJStringBody r with
      | some (key, r2) =>
        match skipWs r2 with
        | ':' :: r3 =>
          match parseScalar (skipWs r3) with
          | some (v, r4) =>
            match skipWs r4 with
            | ',' :: r5 => parseMembers fuel r5 (acc ++ [(⟨key⟩, v)])
            | '}' :: r6 => some (acc ++ [(⟨key⟩, v)], r6)
            | _ => none
          | none => none
        | _ => none
      | none => none
    | '}' :: r => if acc.isEmpty then some ([], r) else none
    | _ => none

/-- Model of `JSON.parse` restricted to flat objects with scalar members —
the shape of the configuration example in the specification.  Returns
`none` on any input outside that fragment. -/
def jsonParseFlat (s : String) : Option JSVal :=
  match skipWs s.data with
  | '{' :: r =>
    (parseMembers (s.length + 1) r []).bind
      (fun p => if (skipWs p.2).isEmpty then some (JSVal.obj p.1) else none)
  | _ => none

/- -------------------------------------------------------------------- -/
/- File system models                                                    -/
/- -------------------------------------------------------------------- -/

/-- File system as seen by the options resolver: a finite map from the
path of each existing JSON file to its parsed content (`readJsonFile`'s
`JSON.parse(stripComments(readFileSync ...))`; comment stripping and
parsing are modeled separately by `stripComments`/`jsonParseFlat`, the
resolver theorems work with post-parse values). -/
structure OptFS where
  files : List (String × JSVal)
  /-- Any upper bound on the nesting depth of the stored parsed values;
  it only serves as fuel for the structural embedding `mergeWithF` of
  lodash's recursive merge (which recurses along the child's nesting), so
  any sufficiently large bound yields the same results. -/
  depthBound : Nat

/-- `fs.existsSync` on the options file system. -/
def OptFS.existsF (fs : OptFS) (p : String) : Bool :=
  ((fs.files.find? (fun kv => kv.1 = p)).map (fun kv => kv.2)).isSome

/-- `readJsonFile(file)` (extension.ts lines 226-235): the parsed content
of an existing file; any failure (missing file, parse error) is caught,
surfaces a warning, and yields the empty configuration `{}`. -/
def readJsonFile (fs : OptFS) (p : String) : JSVal :=
  ((fs.files.find? (fun kv => kv.1 = p)).map (fun kv => kv.2)).getD (.obj [])

/-- User-visible notifications sent with `connection.window.showErrorMessage`. -/
inductive UserMessage where
  | cantLoadConfig (file : String) (extendedFrom : Option String)
  | cantFindExtended (baseFile : String) (fromFile : String)
  | dataMethodMissing

/- -------------------------------------------------------------------- -/
/- `_.mergeWith` with the concat customizer (extension.ts lines 243-247)  -/
/- -------------------------------------------------------------------- -/

/-- One key of lodash `mergeWith(base, child, customizer)`: the customizer
concatenates whenever the base value is an array; otherwise lodash's
default merge applies — an `undefined` source value is skipped when a
destination value exists, two plain objects merge recursively (through
`m`), and any other source value overwrites. -/
def mergeStep (m : JSVal → JSVal → JSVal) (bs : List (String × JSVal)) (kc : String × JSVal) :
    List (String × JSVal) :=
  match lookupField bs kc.1, kc.2 with
  | some (.arr a), cv => setField bs kc.1 (.arr (concatJS a cv))
  | some _, JSVal.undef => bs
  | none, JSVal.undef => setField bs kc.1 JSVal.undef
  | some (.obj bfs), .obj cfs => setField bs kc.1 (m (.obj bfs) (.obj cfs))
  | _, cv => setField bs kc.1 cv

/-- `_.mergeWith(base, child, customizer)` as called by `readJSLintFile`:
deep merge of `child` into `base` where the child wins on scalar
conflicts and array-valued fields are concatenated base-then-child.  The
fuel only bounds the nesting depth of the child object (one unit per
recursive level), so any bound at least the child's depth yields the
merge lodash computes. -/
def mergeWithF : Nat → JSVal → JSVal → JSVal
  | 0, _, c => c
  | fuel+1, .obj bs, .obj cs => .obj (cs.foldl (mergeStep (mergeWithF fuel)) bs)
  | _+1, _, c => c

/- -------------------------------------------------------------------- -/
/- `readJSLintFile` (extension.ts lines 237-255)                         -/
/- -------------------------------------------------------------------- -/

/-- `readJSLintFile(file)`: read and parse the file; when the parsed
content has a truthy `extends` field, resolve it against the file's
directory; if the resolved base exists, recursively read it and merge the
child over it (arrays concatenated); otherwise surface a warning and keep
the child alone; in both of those branches the `extends` key is deleted.
`none` models a thrown exception: fuel exhaustion is a cyclic `extends`
chain (infinite recursion in JavaScript), and a truthy non-string
`extends` makes Node's `path.resolve` throw.  The result carries the
warnings surfaced along the way. -/
def readJSLintFile (fs : OptFS) : Nat → String → Option (JSVal × List UserMessage)
  | 0, _ => none
  | fuel+1, file =>
    let content := readJsonFile fs file
    if (content.getField "extends").truthy then
      match content.getField "extends" with
      | .str e =>
        let baseFile := resolvePath (dirname file) e
        if fs.existsF baseFile then
          match readJSLintFile fs fuel baseFile with
          | none => none
          | some (base, msgs) =>
            some ((mergeWithF fs.depthBound base content).deleteField "extends", msgs)
        else
          some (content.deleteField "extends", [.cantFindExtended baseFile file])
      | _ => none
    else
      some (content, [])

/- -------------------------------------------------------------------- -/
/- `OptionsResolver` (extension.ts lines 151-299)                        -/
/- -------------------------------------------------------------------- -/

/-- The file name constant `JSLINTRC`. -/
def JSLINTRC : String := "jslint.conf"

/-- Ambient inputs of `readOptions` other than the resolver state: the
file system and the user's home directory (`process.env` `HOME` /
`USERPROFILE`; `none` models an unset variable). -/
structure OptEnv where
  fs : OptFS
  home : Option String

/-- The legacy inline options' `config` property when it is a truthy
string (a truthy non-string `config` would make `fs.existsSync` throw in
Node and is outside the modeled inputs). -/
def optConfigPathOf (v : JSVal) : Option String :=
  match v.getField "config" with
  | .str c => if c = "" then none else some c
  | _ => none

/-- Fuel handed to `readJSLintFile`: an `extends` step always targets an
existing file, so a chain longer than the file count revisits a file and
diverges in JavaScript; `none` on fuel exhaustion models exactly that. -/
def rcFuel (fs : OptFS) : Nat := fs.files.length + 1

/-- The `if (fsPath)` part of `readOptions` (extension.ts lines 275-288)
followed by the home-directory and legacy fallbacks (lines 290-297):
nearest `package.json` consulted for a truthy `jslintConfig`, else nearest
`jslint.conf` with `extends` processing, else `~/jslint.conf` with
`extends` processing, else the legacy inline options object.  `none`
models an exception escaping (only possible from `readJSLintFile`). -/
def readOptionsSearch (env : OptEnv) (jslintOptions : JSVal) (fsPath : String) : Option JSVal :=
  let viaPath : Option (Option JSVal) :=
    if fsPath = "" then none
    else
      match locateFile env.fs.existsF (locFuel fsPath) fsPath "package.json" with
      | some packageFile =>
        if ((readJsonFile env.fs packageFile).getField "jslintConfig").truthy then
          some (some ((readJsonFile env.fs packageFile).getField "jslintConfig"))
        else
          match locateFile env.fs.existsF (locFuel fsPath) fsPath JSLINTRC with
          | some configFile =>
            some ((readJSLintFile env.fs (rcFuel env.fs) configFile).map (fun pr => pr.1))
          | none => none
      | none =>
        match locateFile env.fs.existsF (locFuel fsPath) fsPath JSLINTRC with
        | some configFile =>
          some ((readJSLintFile env.fs (rcFuel env.fs) configFile).map (fun pr => pr.1))
        | none => none
  match viaPath with
  | some r => r
  | none =>
    match env.home with
    | some home =>
      if home ≠ "" ∧ env.fs.existsF (pathJoin home JSLINTRC) then
        (readJSLintFile env.fs (rcFuel env.fs) (pathJoin home JSLINTRC)).map (fun pr => pr.1)
      else some jslintOptions
    | none => some jslintOptions

/-- `readOptions(fsPath)` (extension.ts lines 194-298), with the resolver
fields passed explicitly: explicitly configured path first, then the
legacy options' own `config` path, then the `fsPath`-based search and
fallbacks.  A `null` `fsPath` is modeled by `""` (both are falsy). -/
def readOptions (env : OptEnv) (configPath : Option String) (jslintOptions : JSVal)
    (fsPath : String) : Option JSVal :=
  if strTruthy configPath ∧ env.fs.existsF (configPath.getD "") then
    some (readJsonFile env.fs (configPath.getD ""))
  else if jslintOptions.truthy ∧ (optConfigPathOf jslintOptions).isSome
      ∧ env.fs.existsF ((optConfigPathOf jslintOptions).getD "") then
    some (readJsonFile env.fs ((optConfigPathOf jslintOptions).getD ""))
  else readOptionsSearch env jslintOptions fsPath

/-- State of an `OptionsResolver` (the `version` field never feeds into
resolution and is omitted). -/
structure OptionsResolver where
  configPath : Option String
  jslintOptions : JSVal
  optionsCache : List (String × JSVal)

/-- `OptionsResolver.configure(path, jslintOptions)`: discard the whole
cache and store the new inputs. -/
def OptionsResolver.configure (_st : OptionsResolver) (path : Option String)
    (jslintOptions : JSVal) : OptionsResolver :=
  { configPath := path, jslintOptions := jslintOptions, optionsCache := [] }

/-- `OptionsResolver.clear()`: discard the whole cache, keep the inputs. -/
def OptionsResolver.clear (st : OptionsResolver) : OptionsResolver :=
  { st with optionsCache := [] }

/-- Cache read `this.optionsCache[fsPath]`: a missing key reads as
`undefined`. -/
def cacheRead (cache : List (String × JSVal)) (k : String) : JSVal :=
  ((cache.find? (fun kv => kv.1 = k)).map (fun kv => kv.2)).getD JSVal.undef

/-- `OptionsResolver.getOptions(fsPath)` (extension.ts lines 185-192): a
truthy cached value is returned as is; otherwise `readOptions` runs and
its result is stored (note the `if (!result)` truthiness test: a falsy
cached value is recomputed).  The third component counts the
`readOptions` invocations this call performed (0 or 1), making the
memoization behavior observable; `none` models an exception escaping from
`readOptions`. -/
def OptionsResolver.getOptions (env : OptEnv) (st : OptionsResolver) (fsPath : String) :
    Option (JSVal × OptionsResolver × Nat) :=
  let result := cacheRead st.optionsCache fsPath
  if result.truthy then some (result, st, 0)
  else
    match readOptions env st.configPath st.jslintOptions fsPath with
    | none => none
    | some r => some (r, { st with optionsCache := (fsPath, r) :: st.optionsCache }, 1)

/- -------------------------------------------------------------------- -/
/- `FileMatcher` (extension.ts lines 301-378)                            -/
/- -------------------------------------------------------------------- -/

/-- The file name constant `JSLINTIGNORE`. -/
def JSLINTIGNORE : String := ".jslintignore"

/-- File system as seen by the file matcher: a finite map from the path of
each existing ignore file to its patterns as parsed by the
`parse-gitignore` dependency (`processIgnoreFile`). -/
structure IgnoreFS where
  files : List (String × List String)

/-- `fs.existsSync` on the ignore-file file system. -/
def IgnoreFS.existsF (ifs : IgnoreFS) (p : String) : Bool :=
  ((ifs.files.find? (fun kv => kv.1 = p)).map (fun kv => kv.2)).isSome

/-- `processIgnoreFile(path)` — the `parse-gitignore` dependency, modeled
as returning the stored pattern list of an existing ignore file. -/
def processIgnoreFile (ifs : IgnoreFS) (p : String) : List String :=
  ((ifs.files.find? (fun kv => kv.1 = p)).map (fun kv => kv.2)).getD []

/-- State of a `FileMatcher`.  `defaultExcludePatterns` is `null` after
construction and a real list after `configure`; the cache maps a path to
its memoized boolean verdict (stored and looked up with
`hasOwnProperty`, so even a `false` verdict is served from the cache). -/
structure FileMatcher where
  configPath : Option String
  defaultExcludePatterns : Option (List String)
  excludeCache : List (String × Bool)

/-- `pickTrueKeys(obj)`: the keys of the entries whose value is exactly
`true`, in object order (`_.keys(_.pickBy(obj, v => v === true))`). -/
def pickTrueKeys (obj : Option (List (String × Bool))) : List String :=
  ((obj.getD []).filter (fun kv => kv.2)).map (fun kv => kv.1)

/-- `FileMatcher.configure(path, exclude)`: store the ignore-file path,
discard the whole cache, and derive the static pattern set. -/
def FileMatcher.configure (_st : FileMatcher) (path : Option String)
    (exclude : Option (List (String × Bool))) : FileMatcher :=
  { configPath := path, excludeCache := [],
    defaultExcludePatterns := some (pickTrueKeys exclude) }

/-- `FileMatcher.clear(exclude)`: discard the whole cache only. -/
def FileMatcher.clear (st : FileMatcher) (_exclude : Option (List (String × Bool))) :
    FileMatcher :=
  { st with excludeCache := [] }

/-- `FileMatcher.relativeTo(fsPath, folder)` (lines 329-338): when the
folder is truthy and a prefix of the path (`0 === fsPath.indexOf(folder)`),
cut it off together with one immediately following `'/'`; otherwise the
path is returned unchanged. -/
def FileMatcher.relativeTo (fsPath : String) (folder : Option String) : String :=
  match folder with
  | some f =>
    if f ≠ "" ∧ f.data.isPrefixOf fsPath.data then
      let cutting :=
        if f.data.length < fsPath.data.length ∧ fsPath.data[f.data.length]? = some '/'
        then f.data.length + 1 else f.data.length
      ⟨fsPath.data.drop cutting⟩
    else fsPath
  | none => fsPath

/-- `FileMatcher.folderOf(fsPath)` (lines 340-343): the part before the
last `'/'`, or the path itself when there is none. -/
def FileMatcher.folderOf (fsPath : String) : String :=
  match fsPath.data.reverse.findIdx? (fun c => c = '/') with
  | some ridx => ⟨fsPath.data.take (fsPath.data.length - 1 - ridx)⟩
  | none => fsPath

/-- `FileMatcher.match(excludePatters, path, root)` (lines 345-350,
`match` is reserved in Lean): the path made relative to the root matches
at least one pattern (`_.some`; a `null` pattern list matches nothing). -/
def FileMatcher.matchP (excludePatterns : Option (List String)) (path : String)
    (root : Option String) : Bool :=
  let relativePath := FileMatcher.relativeTo path root
  (excludePatterns.getD []).any (fun pattern => minimatch relativePath pattern)

/-- The cache-miss computation inside `FileMatcher.excludes` (lines
359-370): an existing configured ignore file is matched against the given
root; else the nearest ancestor `.jslintignore` is matched against that
ignore file's own folder; else the static patterns are matched against the
given root. -/
def FileMatcher.computeExcluded (ifs : IgnoreFS) (st : FileMatcher) (p : String)
    (root : Option String) : Bool :=
  if strTruthy st.configPath ∧ ifs.existsF (st.configPath.getD "") then
    FileMatcher.matchP (some (processIgnoreFile ifs (st.configPath.getD ""))) p root
  else
    match locateFile ifs.existsF (locFuel p) p JSLINTIGNORE with
    | some ignoreFile =>
      FileMatcher.matchP (some (processIgnoreFile ifs ignoreFile)) p
        (some (FileMatcher.folderOf ignoreFile))
    | none => FileMatcher.matchP st.defaultExcludePatterns p root

/-- The cache probe `this.excludeCache.hasOwnProperty(fsPath)` together
with the subsequent read: the stored verdict when the key is present. -/
def lookupVerdict (cache : List (String × Bool)) (p : String) : Option Bool :=
  (cache.find? (fun kv => kv.1 = p)).map (fun kv => kv.2)

/-- `FileMatcher.excludes(fsPath, root)` (lines 352-377): a falsy path is
always excluded; a cached verdict (keyed by the path alone) is returned
unchanged; otherwise the verdict is computed and stored. -/
def FileMatcher.excludes (ifs : IgnoreFS) (st : FileMatcher) (fsPath : Option String)
    (root : Option String) : Bool × FileMatcher :=
  if strTruthy fsPath then
    let p := fsPath.getD ""
    match lookupVerdict st.excludeCache p with
    | some v => (v, st)
    | none =>
      let shouldBeExcluded := FileMatcher.computeExcluded ifs st p root
      (shouldBeExcluded, { st with excludeCache := (p, shouldBeExcluded) :: st.excludeCache })
  else (true, st)

/- -------------------------------------------------------------------- -/
/- Diagnostics (`makeDiagnostic`, `getSeverity`, lines 108-136)          -/
/- -------------------------------------------------------------------- -/

/-- A raw warning as surfaced by `JSLINT.data().warnings`. -/
structure RawWarning where
  code : Option String
  line : Int
  column : Int
  message : String

/-- The structured engine result retrieved by `JSLINT.data()`. -/
structure JSLintReport where
  warnings : List RawWarning

/-- A `JSLintError` record as built by `lintContent` (only the fields that
feed `makeDiagnostic`, plus the index `id`). -/
structure JSLintErr where
  id : Nat
  code : Option String
  line : Int
  character : Int
  reason : String

/-- A zero-based text position. -/
structure Position where
  line : Int
  character : Int
deriving DecidableEq

/-- A diagnostic range (start and stop position; the source always emits a
degenerate point range). -/
structure Range where
  start : Position
  stop : Position
deriving DecidableEq

/-- `DiagnosticSeverity.Error` of the language-server protocol. -/
def DiagnosticSeverity.Error : Nat := 1

/-- `DiagnosticSeverity.Warning` of the language-server protocol. -/
def DiagnosticSeverity.Warning : Nat := 2

/-- A published diagnostic. -/
structure Diagnostic where
  message : String
  severity : Nat
  source : String
  code : Option String
  range : Range

/-- Truthiness of the `code` field (`problem.code ? ... : ...`): present
and nonempty. -/
def codeTruthy : Option String → Bool
  | some s => s ≠ ""
  | none => false

/-- `getSeverity(problem)` (lines 129-136): no (falsy) code, or a code
whose first character is `E`, is an error; everything else a warning. -/
def getSeverity (problem : JSLintErr) : Nat :=
  if ¬ codeTruthy problem.code ∨ (problem.code.getD "").data.head? = some 'E' then
    DiagnosticSeverity.Error
  else DiagnosticSeverity.Warning

/-- `makeDiagnostic(problem)` (lines 108-127): clamp line and character to
a minimum of 1, then emit a point range at the 0-based position, the
reason suffixed with the parenthesized code when one is present, and the
severity from `getSeverity`. -/
def makeDiagnostic (problem : JSLintErr) : Diagnostic :=
  let line := if problem.line ≤ 0 then 1 else problem.line
  let character := if problem.character ≤ 0 then 1 else problem.character
  { message := problem.reason ++
      (if codeTruthy problem.code then " (" ++ problem.code.getD "" ++ ")" else "")
  , severity := getSeverity problem
  , source := "jsLint"
  , code := problem.code
  , range := { start := { line := line - 1, character := character - 1 }
             , stop := { line := line - 1, character := character - 1 } } }

/- -------------------------------------------------------------------- -/
/- `Linter.lintContent` / `Linter.validate` (lines 475-518)              -/
/- -------------------------------------------------------------------- -/

/-- The lint engine as `lintContent` sees it after calling
`JSLINT(content, options, globals)`: `dataResult` is the value of
`JSLINT.data()`, with `none` modeling an engine whose `data` accessor is
missing or throws. -/
structure LintEngine where
  dataResult : Option JSLintReport

/-- The TypeError thrown by `output.warnings` when `output` is
`undefined`. -/
def outputUndefinedTypeError : String :=
  "TypeError: cannot read property warnings of undefined"

/-- `Linter.lintContent(content, fsPath)` (lines 475-495): run the engine,
try `JSLINT.data()` — a failure there is caught and surfaces a warning,
leaving `output` undefined — then map `output.warnings` to `JSLintError`
records.  When `output` is undefined that member access throws a
TypeError which nothing in `lintContent` catches, modeled by the
`Except.error` result.  The first component collects the user-visible
messages shown. -/
def lintContent (eng : LintEngine) (_content : String) (_options : JSVal) :
    List UserMessage × Except String (List JSLintErr) :=
  match eng.dataResult with
  | some output =>
    ([], .ok (output.warnings.enum.map (fun iw =>
      { code := iw.2.code, id := iw.1, line := iw.2.line,
        character := iw.2.column, reason := iw.2.message })))
  | none => ([.dataMethodMissing], .error outputUndefinedTypeError)

/-- `Linter.validate(document)` (lines 498-518) after the path resolution
step, with the exclusion verdict passed in: an excluded document publishes
an empty diagnostics list; otherwise `lintContent` runs and its findings
are mapped through `makeDiagnostic` and published for the document's URI.
`validate` itself catches nothing, so an exception from `lintContent`
escapes (the `Except.error` case) and nothing is published. -/
def validate (eng : LintEngine) (excluded : Bool) (uri : String) (content : String)
    (options : JSVal) : List UserMessage × Except String (String × List Diagnostic) :=
  if excluded then ([], .ok (uri, []))
  else
    match lintContent eng content options with
    | (msgs, .error e) => (msgs, .error e)
    | (msgs, .ok errors) => (msgs, .ok (uri, errors.map makeDiagnostic))

/-- Specification-side reading of priority item 3 of the claimed option
resolution order: the nearest ancestor directory containing a
`package.json` that has the recognized `jslintConfig` property, whose
property value is returned directly.  (This follows the claim text; the
source instead stops at the nearest `package.json` regardless of whether
it has the property — see the counterexample.) -/
def specNearestPkgWithProp (env : OptEnv) (fuel : Nat) (startDir : String) : Option JSVal :=
  ((ancestorChain fuel startDir).filterMap (fun d =>
    let pf := pathJoin d "package.json"
    let content := readJsonFile env.fs pf
    if env.fs.existsF pf &&
        (match content with
         | .obj l => (l.find? (fun kv => kv.1 = "jslintConfig")).isSome
         | _ => false) then
      some (content.getField "jslintConfig")
    else none)).head?

/- -------------------------------------------------------------------- -/
/- Concrete fixtures used by counterexamples and witnesses               -/
/- -------------------------------------------------------------------- -/

/-- An options file system with no files. -/
def fxEmptyOptFS : OptFS := { files := [], depthBound := 0 }

/-- An environment with no files on disk and no home directory. -/
def fxEnvEmpty : OptEnv := { fs := fxEmptyOptFS, home := none }

/-- A freshly configured resolver: no explicit path, `undefined` legacy
options, empty cache. -/
def fxResolverUndef : OptionsResolver :=
  { configPath := none, jslintOptions := JSVal.undef, optionsCache := [] }

/-- The resolver state after one `getOptions "/a.js"` call on
`fxResolverUndef` in `fxEnvEmpty` (the resolved `undefined` was stored). -/
def fxResolverUndef1 : OptionsResolver :=
  { configPath := none, jslintOptions := JSVal.undef, optionsCache := [("/a.js", JSVal.undef)] }

/-- The state after a second `getOptions "/a.js"` call: the falsy cached
value was not served, resolution ran again and stored again. -/
def fxResolverUndef2 : OptionsResolver :=
  { configPath := none, jslintOptions := JSVal.undef,
    optionsCache := [("/a.js", JSVal.undef), ("/a.js", JSVal.undef)] }

/-- A resolver whose legacy options are the (truthy) empty object. -/
def fxResolverObj : OptionsResolver :=
  { configPath := none, jslintOptions := .obj [], optionsCache := [] }

/-- `fxResolverObj` after one `getOptions "/a.js"` call in `fxEnvEmpty`. -/
def fxResolverObj1 : OptionsResolver :=
  { configPath := none, jslintOptions := .obj [], optionsCache := [("/a.js", .obj [])] }

/-- An ignore-file file system with no files. -/
def fxEmptyIgnoreFS : IgnoreFS := { files := [] }

/-- A matcher configured with the single static pattern `build/**`. -/
def fxMatcherBuild : FileMatcher :=
  { configPath := none, defaultExcludePatterns := some ["build/**"], excludeCache := [] }

/-- A raw warning with `line = 0` but a positive `character`. -/
def fxWarnLineZero : JSLintErr :=
  { id := 0, code := none, line := 0, character := 5, reason := "r" }

/-- A raw warning with both coordinates non-positive and a warning code. -/
def fxWarnClamp : JSLintErr :=
  { id := 0, code := some "W1", line := 0, character := 0, reason := "m" }

/-- Parent/child configuration pair: parent `/p/base.conf` holds
`a: [1], b: 1`; child `/p/child.conf` holds `a: [2]` and extends the
parent. -/
def fxFsExtends : OptFS :=
  { files :=
      [ ("/p/base.conf", .obj [("a", .arr [.num 1]), ("b", .num 1)])
      , ("/p/child.conf", .obj [("a", .arr [.num 2]), ("extends", .str "base.conf")]) ]
  , depthBound := 5 }

/-- A config whose `extends` points to a nonexistent file. -/
def fxFsExtendsMissing : OptFS :=
  { files := [("/p/c.conf", .obj [("a", .num 1), ("extends", .str "nope.conf")])]
  , depthBound := 5 }

/-- A config carrying an `extends` field whose value is the falsy empty
string. -/
def fxFsExtendsFalsy : OptFS :=
  { files := [("/p/f.conf", .obj [("extends", .str ""), ("x", .num 1)])]
  , depthBound := 5 }

/-- File system for the package.json priority counterexample: the nearest
`package.json` (in `/proj/src`) has no `jslintConfig` property, a farther
one (in `/proj`) has it. -/
def fxEnvPkgSkip : OptEnv :=
  { fs :=
      { files :=
          [ ("/proj/src/package.json", .obj [("name", .str "p")])
          , ("/proj/package.json", .obj [("jslintConfig", .obj [("x", .num 1)])]) ],
        depthBound := 5 },
    home := none }

/-- Environment with an explicitly configured config file on disk. -/
def fxEnvConfigured : OptEnv :=
  { fs := { files := [("/c.conf", .obj [("x", .num 2)])], depthBound := 1 }, home := none }

/-- The relaxed-JSON example text: a block comment between members and a
double-quoted string containing `//`. -/
def fxRelaxedJson : String := "\x7b\"a\": 1, /* c */ \"b\": \"http://x\"\x7d"

/-- The same text after comment stripping. -/
def fxStrippedJson : String := "\x7b\"a\": 1,  \"b\": \"http://x\"\x7d"

/- -------------------------------------------------------------------- -/
/- Theorems                                                              -/
/- -------------------------------------------------------------------- -/

/-- C1: engine result retrieval fails (`data()` missing or throwing).
The claim says `lintContent` yields an empty finding list and `validate`
still publishes a diagnostics list.  The code does surface the
user-visible warning, but then dereferences the still-undefined `output`:
`lintContent` throws a TypeError and `validate` (which catches nothing)
propagates it, publishing nothing — the code contradicts the recovery its
own warning message announces. -/
theorem c1_data_failure_throws :
    lintContent { dataResult := none } "x = 1" (JSVal.obj []) =
      ([UserMessage.dataMethodMissing], Except.error outputUndefinedTypeError) ∧
    validate { dataResult := none } false "file:///proj/src/a.js" "x = 1" (JSVal.obj []) =
      ([UserMessage.dataMethodMissing], Except.error outputUndefinedTypeError) :=
  ⟨rfl, rfl⟩

/-- C9: `FileMatcher.excludes` returns `true` (excluded) for every
`null`/`undefined` (modeled `none`) or empty-string path, regardless of
the root, the patterns, or the cache state; the state is untouched. -/
theorem c9_falsy_path_always_excluded :
    ∀ (ifs : IgnoreFS) (st : FileMatcher) (root : Option String) (fsPath : Option String),
      fsPath = none ∨ fsPath = some "" →
      FileMatcher.excludes ifs st fsPath root = (true, st) := by
  intro ifs st root fsPath h
  rcases h with h | h <;> subst h <;> simp [FileMatcher.excludes, strTruthy]

/-- Witness for C9 at a concrete matcher state and both falsy paths. -/
theorem c9_witness :
    FileMatcher.excludes fxEmptyIgnoreFS fxMatcherBuild none (some "/proj") =
      (true, fxMatcherBuild) ∧
    FileMatcher.excludes fxEmptyIgnoreFS fxMatcherBuild (some "") none =
      (true, fxMatcherBuild) :=
  ⟨c9_falsy_path_always_excluded fxEmptyIgnoreFS fxMatcherBuild (some "/proj") none (Or.inl rfl),
   c9_falsy_path_always_excluded fxEmptyIgnoreFS fxMatcherBuild none (some "") (Or.inr rfl)⟩

/-- Unfolding of `FileMatcher.excludes` for a truthy path: cache hit or
compute-and-store. -/
theorem fm_excludes_unfold (ifs : IgnoreFS) (st : FileMatcher) (p : String)
    (root : Option String) (hp : p ≠ "") :
    FileMatcher.excludes ifs st (some p) root =
      (match lookupVerdict st.excludeCache p with
       | some v => (v, st)
       | none =>
         (FileMatcher.computeExcluded ifs st p root,
          { st with excludeCache :=
              (p, FileMatcher.computeExcluded ifs st p root) :: st.excludeCache })) := by
  simp [FileMatcher.excludes, strTruthy, hp]

/-- C10: the exclusion verdict is memoized keyed by the path alone: a
cached verdict is returned for any root (and without touching the file
system), a computed verdict is stored under the path, an immediately
repeated call with a different root and even a different file system
returns the first verdict unchanged, and existing cache entries survive
any further `excludes` call. -/
theorem c10_cache_keyed_by_path_alone :
    ∀ (ifs ifs2 : IgnoreFS) (st : FileMatcher) (p : String) (root root2 : Option String),
      p ≠ "" →
      (∀ v, lookupVerdict st.excludeCache p = some v →
        FileMatcher.excludes ifs st (some p) root = (v, st)) ∧
      (lookupVerdict (FileMatcher.excludes ifs st (some p) root).2.excludeCache p =
        some (FileMatcher.excludes ifs st (some p) root).1) ∧
      (FileMatcher.excludes ifs2 (FileMatcher.excludes ifs st (some p) root).2 (some p) root2 =
        ((FileMatcher.excludes ifs st (some p) root).1,
         (FileMatcher.excludes ifs st (some p) root).2)) ∧
      (∀ q w fp, lookupVerdict st.excludeCache q = some w →
        lookupVerdict (FileMatcher.excludes ifs st fp root).2.excludeCache q = some w) := by
  intro ifs ifs2 st p root root2 hp
  have hcached : ∀ (ifs3 : IgnoreFS) (root3 : Option String) (st3 : FileMatcher) v,
      lookupVerdict st3.excludeCache p = some v →
      FileMatcher.excludes ifs3 st3 (some p) root3 = (v, st3) := by
    intro ifs3 root3 st3 v hv
    rw [fm_excludes_unfold ifs3 st3 p root3 hp, hv]
  have hstores : lookupVerdict (FileMatcher.excludes ifs st (some p) root).2.excludeCache p =
      some (FileMatcher.excludes ifs st (some p) root).1 := by
    rw [fm_excludes_unfold ifs st p root hp]
    cases hv : lookupVerdict st.excludeCache p with
    | some v => simpa using hv
    | none => simp [lookupVerdict]
  refine ⟨hcached ifs root st, hstores, hcached ifs2 root2 _ _ hstores, ?_⟩
  intro q w fp hq
  rcases fp with _ | s
  · simp only [FileMatcher.excludes, strTruthy]
    simpa using hq
  · by_cases hs : s = ""
    · subst hs
      simp only [FileMatcher.excludes, strTruthy]
      simpa using hq
    · rw [fm_excludes_unfold ifs st s root hs]
      cases hv : lookupVerdict st.excludeCache s with
      | some v => simpa using hq
      | none =>
        have hsq : ¬ ((s, FileMatcher.computeExcluded ifs st s root).1 = q) := by
          intro h
          rw [show s = q from h] at hv
          rw [hq] at hv
          exact Option.noConfusion hv
        simp only [lookupVerdict] at hq ⊢
        rw [List.find?_cons_of_neg _ (by simpa using hsq)]
        exact hq

/-- Witness for C10: with the verdict for `/proj/build/out.js` computed
under root `/proj`, the repeated call under a different root and a file
system that now contains a catch-all ignore file still returns the first
verdict. -/
theorem c10_witness :
    FileMatcher.excludes { files := [("/x/.jslintignore", ["**"])] }
      (FileMatcher.excludes fxEmptyIgnoreFS fxMatcherBuild (some "/proj/build/out.js")
        (some "/proj")).2
      (some "/proj/build/out.js") (some "/other") =
      ((FileMatcher.excludes fxEmptyIgnoreFS fxMatcherBuild (some "/proj/build/out.js")
          (some "/proj")).1,
       (FileMatcher.excludes fxEmptyIgnoreFS fxMatcherBuild (some "/proj/build/out.js")
          (some "/proj")).2) :=
  (c10_cache_keyed_by_path_alone fxEmptyIgnoreFS { files := [("/x/.jslintignore", ["**"])] }
    fxMatcherBuild "/proj/build/out.js" (some "/proj") (some "/other")
    (by decide)).2.2.1

/-- C2: both `configure()` and `clear()` unconditionally discard the whole
cache map of their object, and the first lookup afterwards recomputes from
the current inputs — `getOptions` runs `readOptions` against the
newly-stored (respectively unchanged) inputs and file system, and
`excludes` runs the full `computeExcluded` chain — never returning a value
cached before the call. -/
theorem c2_configure_clear_discard_cache :
    (∀ (st : OptionsResolver) (cp : Option String) (o : JSVal),
      (OptionsResolver.configure st cp o).optionsCache = []) ∧
    (∀ st : OptionsResolver, (OptionsResolver.clear st).optionsCache = []) ∧
    (∀ (st : FileMatcher) (pth : Option String) (ex : Option (List (String × Bool))),
      (FileMatcher.configure st pth ex).excludeCache = []) ∧
    (∀ (st : FileMatcher) (ex : Option (List (String × Bool))),
      (FileMatcher.clear st ex).excludeCache = []) ∧
    (∀ (env : OptEnv) (st : OptionsResolver) (cp : Option String) (o : JSVal) (p : String),
      OptionsResolver.getOptions env (OptionsResolver.configure st cp o) p =
        (readOptions env cp o p).map
          (fun r => (r, { configPath := cp, jslintOptions := o, optionsCache := [(p, r)] }, 1))) ∧
    (∀ (env : OptEnv) (st : OptionsResolver) (p : String),
      OptionsResolver.getOptions env (OptionsResolver.clear st) p =
        (readOptions env st.configPath st.jslintOptions p).map
          (fun r => (r, { configPath := st.configPath, jslintOptions := st.jslintOptions,
                          optionsCache := [(p, r)] }, 1))) ∧
    (∀ (ifs : IgnoreFS) (st : FileMatcher) (cpth : Option String)
       (ex : Option (List (String × Bool))) (p : String) (root : Option String),
      p ≠ "" →
      FileMatcher.excludes ifs (FileMatcher.configure st cpth ex) (some p) root =
        (FileMatcher.computeExcluded ifs (FileMatcher.configure st cpth ex) p root,
         { configPath := cpth, defaultExcludePatterns := some (pickTrueKeys ex),
           excludeCache :=
             [(p, FileMatcher.computeExcluded ifs (FileMatcher.configure st cpth ex) p root)] })) ∧
    (∀ (ifs : IgnoreFS) (st : FileMatcher) (ex : Option (List (String × Bool)))
       (p : String) (root : Option String),
      p ≠ "" →
      FileMatcher.excludes ifs (FileMatcher.clear st ex) (some p) root =
        (FileMatcher.computeExcluded ifs (FileMatcher.clear st ex) p root,
         { configPath := st.configPath, defaultExcludePatterns := st.defaultExcludePatterns,
           excludeCache :=
             [(p, FileMatcher.computeExcluded ifs (FileMatcher.clear st ex) p root)] })) := by
  refine ⟨fun _ _ _ => rfl, fun _ => rfl, fun _ _ _ => rfl, fun _ _ => rfl, ?_, ?_, ?_, ?_⟩
  · intro env st cp o p
    cases hr : readOptions env cp o p <;>
      simp [OptionsResolver.getOptions, OptionsResolver.configure, cacheRead, JSVal.truthy, hr]
  · intro env st p
    cases hr : readOptions env st.configPath st.jslintOptions p <;>
      simp [OptionsResolver.getOptions, OptionsResolver.clear, cacheRead, JSVal.truthy, hr]
  · intro ifs st cpth ex p root hp
    rw [fm_excludes_unfold _ _ p root hp]
    simp [FileMatcher.configure, lookupVerdict]
  · intro ifs st ex p root hp
    rw [fm_excludes_unfold _ _ p root hp]
    simp [FileMatcher.clear, lookupVerdict]

/-- Witness for C2: after `configure` points the resolver at `/c.conf`,
the very first lookup re-reads that file from disk (one `readOptions`
run), and a matcher cleared after having cached a verdict recomputes it. -/
theorem c2_witness :
    OptionsResolver.getOptions fxEnvConfigured
      (OptionsResolver.configure fxResolverUndef (some "/c.conf") JSVal.undef) "/a.js" =
      some (JSVal.obj [("x", JSVal.num 2)],
        { configPath := some "/c.conf", jslintOptions := JSVal.undef,
          optionsCache := [("/a.js", JSVal.obj [("x", JSVal.num 2)])] }, 1) ∧
    FileMatcher.excludes fxEmptyIgnoreFS
      (FileMatcher.clear { fxMatcherBuild with excludeCache := [("/proj/build/out.js", false)] }
        none)
      (some "/proj/build/out.js") (some "/proj") =
      (FileMatcher.computeExcluded fxEmptyIgnoreFS
        (FileMatcher.clear { fxMatcherBuild with excludeCache := [("/proj/build/out.js", false)] }
          none) "/proj/build/out.js" (some "/proj"),
       { configPath := none, defaultExcludePatterns := some ["build/**"],
         excludeCache :=
           [("/proj/build/out.js",
             FileMatcher.computeExcluded fxEmptyIgnoreFS
               (FileMatcher.clear
                 { fxMatcherBuild with excludeCache := [("/proj/build/out.js", false)] } none)
               "/proj/build/out.js" (some "/proj"))] }) := by
  constructor
  · have h := c2_configure_clear_discard_cache.2.2.2.2.1 fxEnvConfigured fxResolverUndef
      (some "/c.conf") JSVal.undef "/a.js"
    rw [h]
    rfl
  · exact c2_configure_clear_discard_cache.2.2.2.2.2.2.2 fxEmptyIgnoreFS
      { fxMatcherBuild with excludeCache := [("/proj/build/out.js", false)] } none
      "/proj/build/out.js" (some "/proj") (by decide)

/-- C8: repeated `getOptions` for the same path within one configuration
epoch.  The `if (!result)` test means the memoization only holds for
truthy resolved values (any object, even empty, is truthy): then the
second call returns the stored result with zero `readOptions` runs and an
unchanged state.  A falsy resolved value (such as `undefined`) is never
served from the cache: the second call runs `readOptions` again (returning
the same value, the inputs being unchanged) and stores again. -/
theorem c8_memoization_truthy_only :
    ∀ (env : OptEnv) (st : OptionsResolver) (p : String) (v : JSVal)
      (st1 : OptionsResolver) (n : Nat),
      OptionsResolver.getOptions env st p = some (v, st1, n) →
      (v.truthy = true → OptionsResolver.getOptions env st1 p = some (v, st1, 0)) ∧
      (v.truthy = false →
        OptionsResolver.getOptions env st1 p =
          some (v, { st1 with optionsCache := (p, v) :: st1.optionsCache }, 1)) := by
  intro env st p v st1 n h
  rw [OptionsResolver.getOptions] at h
  by_cases hc : (cacheRead st.optionsCache p).truthy
  · -- first call was a cache hit: v is the truthy cached value, state unchanged
    rw [if_pos hc] at h
    obtain ⟨hv, hst, -⟩ : cacheRead st.optionsCache p = v ∧ st = st1 ∧ 0 = n := by
      simpa using h
    subst hst
    subst hv
    refine ⟨fun _ => ?_, fun hfalse => ?_⟩
    · rw [OptionsResolver.getOptions, if_pos hc]
    · rw [hfalse] at hc
      exact absurd hc (by decide)
  · -- first call computed: the result was stored at the head of the cache
    rw [if_neg hc] at h
    cases hr : readOptions env st.configPath st.jslintOptions p with
    | none =>
      rw [hr] at h
      exact absurd h (by simp)
    | some r =>
      rw [hr] at h
      obtain ⟨hv, hst, -⟩ :
          r = v ∧ { st with optionsCache := (p, r) :: st.optionsCache } = st1 ∧ 1 = n := by
        simpa using h
      subst hv
      subst hst
      refine ⟨fun htrue => ?_, fun hfalse => ?_⟩
      · simp [OptionsResolver.getOptions, cacheRead, htrue]
      · simp [OptionsResolver.getOptions, cacheRead, hfalse, hr]

/-- Counterexample to C8 as stated: with no configuration sources at all,
resolution yields `undefined` (a falsy value).  The first `getOptions`
call stores it, yet the repeated call for the same path in the same epoch
runs resolution again (`readOptions` invocation count 1, not 0) and
stores a second entry — the claim's "at most once per epoch, for every
possible resolved value (including ... undefined)" fails at this input. -/
theorem c8_counterexample :
    OptionsResolver.getOptions fxEnvEmpty fxResolverUndef "/a.js" =
      some (JSVal.undef, fxResolverUndef1, 1) ∧
    OptionsResolver.getOptions fxEnvEmpty fxResolverUndef1 "/a.js" =
      some (JSVal.undef, fxResolverUndef2, 1) ∧
    (1 : Nat) ≠ 0 :=
  ⟨rfl, rfl, by decide⟩

/-- Witness for C8: the truthy resolved value `{}` (the legacy inline
options object) is memoized — the repeated call performs zero
`readOptions` runs and leaves the state unchanged. -/
theorem c8_witness :
    OptionsResolver.getOptions fxEnvEmpty fxResolverObj1 "/a.js" =
      some (JSVal.obj [], fxResolverObj1, 0) :=
  (c8_memoization_truthy_only fxEnvEmpty fxResolverObj "/a.js" (JSVal.obj [])
    fxResolverObj1 1 rfl).1 rfl

/-- C6 (amended): `makeDiagnostic` produces a degenerate point range at
`(max(line,1)-1, max(character,1)-1)` — each non-positive coordinate is
clamped to 0 independently, and both clamp to `(0,0)` only when both are
non-positive (the claim's "line ≤ 0 or character ≤ 0 maps to (0,0)" holds
only with "and") — the message is the reason suffixed with the
parenthesized code exactly when a truthy code is present, and the severity
is Error iff the code is absent (missing or empty) or starts with `E`,
else Warning. -/
theorem c6_makeDiagnostic_spec :
    ∀ problem : JSLintErr,
      ((makeDiagnostic problem).range.stop = (makeDiagnostic problem).range.start) ∧
      ((makeDiagnostic problem).range.start =
        { line := max problem.line 1 - 1, character := max problem.character 1 - 1 }) ∧
      (problem.line ≤ 0 → (makeDiagnostic problem).range.start.line = 0) ∧
      (problem.character ≤ 0 → (makeDiagnostic problem).range.start.character = 0) ∧
      (problem.line ≤ 0 ∧ problem.character ≤ 0 →
        (makeDiagnostic problem).range.start = { line := 0, character := 0 }) ∧
      (codeTruthy problem.code = true →
        (makeDiagnostic problem).message =
          problem.reason ++ " (" ++ problem.code.getD "" ++ ")") ∧
      (codeTruthy problem.code = false → (makeDiagnostic problem).message = problem.reason) ∧
      ((makeDiagnostic problem).severity = DiagnosticSeverity.Error ↔
        problem.code = none ∨ problem.code = some "" ∨
          (∃ s, problem.code = some s ∧ s.data.head? = some 'E')) ∧
      ((makeDiagnostic problem).severity = DiagnosticSeverity.Warning ↔
        ¬ (problem.code = none ∨ problem.code = some "" ∨
             (∃ s, problem.code = some s ∧ s.data.head? = some 'E'))) := by
  intro problem
  have hline : (if problem.line ≤ 0 then (1 : Int) else problem.line) = max problem.line 1 := by
    by_cases h : problem.line ≤ 0
    · rw [if_pos h]
      omega
    · rw [if_neg h]
      omega
  have hchar : (if problem.character ≤ 0 then (1 : Int) else problem.character)
      = max problem.character 1 := by
    by_cases h : problem.character ≤ 0
    · rw [if_pos h]
      omega
    · rw [if_neg h]
      omega
  have hsev : (getSeverity problem = DiagnosticSeverity.Error ↔
      problem.code = none ∨ problem.code = some "" ∨
        (∃ s, problem.code = some s ∧ s.data.head? = some 'E')) := by
    rw [getSeverity]
    cases hcode : problem.code with
    | none => simp [codeTruthy, DiagnosticSeverity.Error]
    | some s =>
      by_cases hs : s = ""
      · subst hs
        simp [codeTruthy, DiagnosticSeverity.Error]
      · by_cases hE : s.data.head? = some 'E'
        · simp [codeTruthy, hs, hE, DiagnosticSeverity.Error]
        · simp [codeTruthy, hs, hE, DiagnosticSeverity.Error, DiagnosticSeverity.Warning]
  refine ⟨rfl, ?_, ?_, ?_, ?_, ?_, ?_, hsev, ?_⟩
  · simp only [makeDiagnostic, hline, hchar]
  · intro h
    simp only [makeDiagnostic, if_pos h]
    omega
  · intro h
    simp only [makeDiagnostic, if_pos h]
    omega
  · intro h
    simp only [makeDiagnostic, if_pos h.1, if_pos h.2]
    decide
  · intro h
    simp only [makeDiagnostic, if_pos h]
    simp [String.append_assoc]
  · intro h
    simp only [makeDiagnostic, h, if_neg (by simp [h] : ¬ codeTruthy problem.code = true)]
    simp
  · rw [← hsev]
    show (makeDiagnostic problem).severity = DiagnosticSeverity.Warning ↔
      ¬ (makeDiagnostic problem).severity = DiagnosticSeverity.Error
    rw [makeDiagnostic]
    simp only [getSeverity]
    by_cases h : ¬ codeTruthy problem.code = true ∨ (problem.code.getD "").data.head? = some 'E'
    · rw [if_pos h]
      simp [DiagnosticSeverity.Error, DiagnosticSeverity.Warning]
    · rw [if_neg h]
      simp [DiagnosticSeverity.Error, DiagnosticSeverity.Warning]

/-- Counterexample to C6 as stated: a warning with `line = 0` but
`character = 5` does not map to range start `(0,0)` — the character is
not clamped, only the line is. -/
theorem c6_counterexample :
    fxWarnLineZero.line ≤ 0 ∧
    (makeDiagnostic fxWarnLineZero).range.start ≠ { line := 0, character := 0 } := by
  constructor
  · decide
  · decide

/-- Witness for C6 on a warning with a `W` code and both coordinates 0:
clamped start `(0,0)`, warning severity, suffixed message. -/
theorem c6_witness :
    (makeDiagnostic fxWarnClamp).range.start = { line := 0, character := 0 } ∧
    ((makeDiagnostic fxWarnClamp).severity = DiagnosticSeverity.Warning ↔
      ¬ (fxWarnClamp.code = none ∨ fxWarnClamp.code = some "" ∨
           (∃ s, fxWarnClamp.code = some s ∧ s.data.head? = some 'E'))) ∧
    (codeTruthy fxWarnClamp.code = true →
      (makeDiagnostic fxWarnClamp).message =
        fxWarnClamp.reason ++ " (" ++ fxWarnClamp.code.getD "" ++ ")") :=
  ⟨(c6_makeDiagnostic_spec fxWarnClamp).2.2.2.2.1 ⟨by decide, by decide⟩,
   (c6_makeDiagnostic_spec fxWarnClamp).2.2.2.2.2.2.2.2,
   (c6_makeDiagnostic_spec fxWarnClamp).2.2.2.2.2.1⟩

/-- On a file system with no files, the upward search never finds
anything. -/
theorem locateFile_of_none (ex : String → Bool) (hex : ∀ l, ex l = false) :
    ∀ (fuel : Nat) (d n : String), locateFile ex fuel d n = none := by
  intro fuel
  induction fuel with
  | zero => intro d n; rfl
  | succ f ih =>
    intro d n
    rw [locateFile, hex]
    simp only [Bool.false_eq_true, if_false]
    split
    · rfl
    · exact ih _ _

/-- C7: with an active static pattern set and no ignore files, a
non-empty path is excluded iff the path made relative to the root — the
root prefix stripped together with one following separator — glob-matches
at least one pattern of the set (logical OR); in particular under root
`/proj` with pattern `build/**`, `/proj/build/out.js` is excluded and
`/proj/src/out.js` is not. -/
theorem c7_exclusion_matching :
    (∀ (pats : List String) (p : String) (root : Option String) (ifs : IgnoreFS),
      p ≠ "" → ifs.files = [] →
      ((FileMatcher.excludes ifs
          { configPath := none, defaultExcludePatterns := some pats, excludeCache := [] }
          (some p) root).1 = true ↔
        ∃ pat ∈ pats, minimatch (FileMatcher.relativeTo p root) pat = true)) ∧
    (∀ (root rest : String), root ≠ "" →
      FileMatcher.relativeTo (root ++ "/" ++ rest) (some root) = rest) ∧
    ((FileMatcher.excludes fxEmptyIgnoreFS fxMatcherBuild
        (some "/proj/build/out.js") (some "/proj")).1 = true) ∧
    ((FileMatcher.excludes fxEmptyIgnoreFS fxMatcherBuild
        (some "/proj/src/out.js") (some "/proj")).1 = false) := by
  refine ⟨?_, ?_, by rfl, by rfl⟩
  · intro pats p root ifs hp hfiles
    have hex : ∀ l, ifs.existsF l = false := by
      intro l
      simp [IgnoreFS.existsF, hfiles]
    rw [fm_excludes_unfold _ _ p root hp]
    simp only [lookupVerdict, List.find?_nil, Option.map_none']
    rw [FileMatcher.computeExcluded]
    simp only [strTruthy, Bool.false_eq_true, false_and, if_neg (by simp : ¬ (False ∧
      ifs.existsF (Option.getD none "") = true))]
    rw [locateFile_of_none _ hex]
    simp [FileMatcher.matchP, List.any_eq_true]
  · intro root rest hr
    rw [FileMatcher.relativeTo]
    have hdata : (root ++ "/" ++ rest).data = (root.data ++ ['/']) ++ rest.data := by
      simp [String.data_append]
    have hpre : root.data.isPrefixOf (root ++ "/" ++ rest).data = true := by
      rw [List.isPrefixOf_iff_prefix, hdata, List.append_assoc]
      exact List.prefix_append root.data _
    have hlen : root.data.length < (root ++ "/" ++ rest).data.length := by
      rw [hdata]
      simp
    have hget : (root ++ "/" ++ rest).data[root.data.length]? = some '/' := by
      rw [hdata, List.append_assoc, List.getElem?_append_right (Nat.le_refl _)]
      simp
    have hne : root ≠ "" ∧ root.data.isPrefixOf (root ++ "/" ++ rest).data = true :=
      ⟨hr, hpre⟩
    rw [if_pos hne, if_pos ⟨hlen, hget⟩]
    have hdrop : (root ++ "/" ++ rest).data.drop (root.data.length + 1) = rest.data := by
      rw [hdata]
      have : root.data.length + 1 = (root.data ++ ['/']).length := by simp
      rw [this, List.drop_left]
    show String.mk ((root ++ "/" ++ rest).data.drop (root.data.length + 1)) = rest
    rw [hdrop]

/-- Witness for C7: the root-relative path of `/proj/build/out.js` under
`/proj` is `build/out.js`, and it glob-matches a pattern of the active
set. -/
theorem c7_witness :
    FileMatcher.relativeTo ("/proj" ++ "/" ++ "build/out.js") (some "/proj") = "build/out.js" ∧
    (∃ pat ∈ ["build/**"],
      minimatch (FileMatcher.relativeTo "/proj/build/out.js" (some "/proj")) pat = true) :=
  ⟨c7_exclusion_matching.2.1 "/proj" "build/out.js" (by decide),
   (c7_exclusion_matching.1 ["build/**"] "/proj/build/out.js" (some "/proj") fxEmptyIgnoreFS
      (by decide) rfl).mp (by rfl)⟩

/-- Nothing is found under an always-false predicate. -/
theorem find?_false (m : List (String × JSVal)) :
    List.find? (fun _ => false) m = none := by
  induction m with
  | nil => rfl
  | cons a t ih =>
    rw [List.find?_cons_of_neg _ (by simp)]
    exact ih

/-- Reading a field right after deleting it yields `undefined`. -/
theorem getField_deleteField (v : JSVal) (k : String) :
    (v.deleteField k).getField k = JSVal.undef := by
  cases v <;> simp [JSVal.deleteField, JSVal.getField]
  rw [find?_false]
  rfl

/-- C3 (amended): for every config file whose parsed object has a truthy
(non-empty string) `extends` field, `readJSLintFile` resolves the
referenced path against the file's directory; when the base exists the
result is the recursive resolution of the base deep-merged with the child
(child wins on scalars, arrays concatenated base-then-child, witnessed
concretely by the `a: [1] / a: [2] ↦ a: [1,2]` example); when it does not
exist a user-visible warning is surfaced and the child content stands
alone; and in all these cases the `extends` key is absent from the
result.  (For a *falsy* `extends` value the source's truthiness test
skips all of this and the key survives — see the counterexample.) -/
theorem c3_extends_processing :
    (∀ (fs : OptFS) (fuel : Nat) (file : String) (e : String),
      (readJsonFile fs file).getField "extends" = JSVal.str e → e ≠ "" →
      (fs.existsF (resolvePath (dirname file) e) = true →
        readJSLintFile fs (fuel+1) file =
          (readJSLintFile fs fuel (resolvePath (dirname file) e)).map
            (fun pr => ((mergeWithF fs.depthBound pr.1 (readJsonFile fs file)).deleteField
                "extends", pr.2))) ∧
      (fs.existsF (resolvePath (dirname file) e) = false →
        readJSLintFile fs (fuel+1) file =
          some ((readJsonFile fs file).deleteField "extends",
            [UserMessage.cantFindExtended (resolvePath (dirname file) e) file]))) ∧
    (∀ (fs : OptFS) (fuel : Nat) (file : String) (r : JSVal) (msgs : List UserMessage),
      ((readJsonFile fs file).getField "extends").truthy = true →
      readJSLintFile fs fuel file = some (r, msgs) →
      r.getField "extends" = JSVal.undef) ∧
    (readJSLintFile fxFsExtends 2 "/p/child.conf" =
      some (JSVal.obj [("a", JSVal.arr [JSVal.num 1, JSVal.num 2]), ("b", JSVal.num 1)], [])) ∧
    (readJSLintFile fxFsExtendsMissing 2 "/p/c.conf" =
      some (JSVal.obj [("a", JSVal.num 1)],
        [UserMessage.cantFindExtended "/p/nope.conf" "/p/c.conf"])) := by
  refine ⟨?_, ?_, by rfl, by rfl⟩
  · intro fs fuel file e he hne
    have hstr : (JSVal.str e).truthy = true := by
      simp [JSVal.truthy, hne]
    constructor <;> intro hex
    · rw [readJSLintFile]
      simp only [he, hstr, if_true, hex]
      cases readJSLintFile fs fuel (resolvePath (dirname file) e) <;> simp
    · rw [readJSLintFile]
      simp only [he, hstr, if_true, hex]
      simp
  · intro fs fuel file r msgs ht h
    cases fuel with
    | zero => exact absurd h (by simp [readJSLintFile])
    | succ f =>
      rw [readJSLintFile] at h
      simp only [ht, if_true] at h
      cases hext : (readJsonFile fs file).getField "extends" with
      | str e =>
        rw [hext] at h
        by_cases hex : fs.existsF (resolvePath (dirname file) e) = true
        · simp only [hex, if_true] at h
          cases hrec : readJSLintFile fs f (resolvePath (dirname file) e) with
          | none =>
            rw [hrec] at h
            exact absurd h (by simp)
          | some pr =>
            rw [hrec] at h
            simp only [Option.some.injEq, Prod.mk.injEq] at h
            rw [← h.1]
            exact getField_deleteField _ _
        · simp only [hex] at h
          simp at h
          rw [← h.1]
          exact getField_deleteField _ _
      | undef => rw [hext] at h; exact absurd h (by simp)
      | nullv => rw [hext] at h; exact absurd h (by simp)
      | bool b => rw [hext] at h; exact absurd h (by simp)
      | num n => rw [hext] at h; exact absurd h (by simp)
      | arr xs => rw [hext] at h; exact absurd h (by simp)
      | obj l => rw [hext] at h; exact absurd h (by simp)

/-- Counterexample to C3 as stated: a config whose `extends` field holds
the falsy empty string.  `if (content.extends)` skips the whole branch,
so the returned object still carries the `extends` key — the claim's "in
every case the `extends` key is absent from the returned object" fails. -/
theorem c3_counterexample :
    readJSLintFile fxFsExtendsFalsy 5 "/p/f.conf" =
      some (JSVal.obj [("extends", JSVal.str ""), ("x", JSVal.num 1)], []) ∧
    (JSVal.obj [("extends", JSVal.str ""), ("x", JSVal.num 1)]).getField "extends"
      = JSVal.str "" ∧
    JSVal.str "" ≠ JSVal.undef :=
  ⟨rfl, rfl, fun h => JSVal.noConfusion h⟩

/-- Witness for C3 at the missing-base fixture: the branch hypotheses are
discharged concretely and the result keeps the child alone, extends
removed, with the warning naming the resolved base path. -/
theorem c3_witness :
    readJSLintFile fxFsExtendsMissing (1+1) "/p/c.conf" =
      some ((readJsonFile fxFsExtendsMissing "/p/c.conf").deleteField "extends",
        [UserMessage.cantFindExtended (resolvePath (dirname "/p/c.conf") "nope.conf")
          "/p/c.conf"]) :=
  ((c3_extends_processing.1 fxFsExtendsMissing 1 "/p/c.conf" "nope.conf" rfl
    (by decide)).2 (by rfl))

/-- `locateFile` is the first existence hit along the ancestor chain. -/
theorem locateFile_eq_specNearest (ex : String → Bool) :
    ∀ (fuel : Nat) (d n : String), locateFile ex fuel d n = specNearestFile ex fuel d n := by
  intro fuel
  induction fuel with
  | zero => intro d n; rfl
  | succ f ih =>
    intro d n
    rw [locateFile, specNearestFile, ancestorChain]
    by_cases hex : ex (pathJoin d n) = true
    · rw [if_pos hex]
      simp only [List.map_cons, List.find?_cons_of_pos _ hex]
    · rw [if_neg hex]
      simp only [List.map_cons, List.find?_cons_of_neg _ hex]
      by_cases hpar : dirname d = d
      · rw [if_pos hpar, if_pos hpar]
        rfl
      · rw [if_neg hpar, if_neg hpar, ih, specNearestFile]

/-- Counterexample to C5 as stated: `/proj/src/package.json` exists but
has no `jslintConfig`; `/proj/package.json` has one.  Claimed priority
item 3 — the nearest ancestor containing a `package.json` *with the
property* — would return that value, but the code consults only the
nearest `package.json`, finds no property, skips the `package.json`
source entirely, and (with no other source present) falls through to the
legacy inline options, here `undefined`. -/
theorem c5_counterexample :
    readOptions fxEnvPkgSkip none JSVal.undef "/proj/src/a.js" = some JSVal.undef ∧
    specNearestPkgWithProp fxEnvPkgSkip 16 (dirname "/proj/src/a.js") =
      some (JSVal.obj [("x", JSVal.num 1)]) ∧
    JSVal.undef ≠ JSVal.obj [("x", JSVal.num 1)] :=
  ⟨rfl, rfl, fun h => JSVal.noConfusion h⟩

/-- C5 (amended): `readOptions` honors the priority order (1) explicit
config path, (2) legacy options' `config` path, (3) the nearest ancestor
`package.json` — but only that one: its truthy `jslintConfig` is returned
directly, and when it lacks a truthy property the `package.json` source
is skipped without consulting farther ancestors — (4) the nearest
ancestor `jslint.conf` with `extends` processing, (5) `~/jslint.conf`
with `extends` processing, (6) the legacy inline options object.  The
side conditions say the file path itself carries no config entries (it is
a file, not a directory) and is not the filesystem root. -/
theorem c5_priority_order :
    ∀ (env : OptEnv) (cp : Option String) (opts : JSVal) (p : String),
      (strTruthy cp = true → env.fs.existsF (cp.getD "") = true →
        readOptions env cp opts p = some (readJsonFile env.fs (cp.getD ""))) ∧
      (¬ (strTruthy cp = true ∧ env.fs.existsF (cp.getD "") = true) →
        (opts.truthy = true → ∀ c, optConfigPathOf opts = some c → env.fs.existsF c = true →
          readOptions env cp opts p = some (readJsonFile env.fs c)) ∧
        (¬ (opts.truthy = true ∧ (optConfigPathOf opts).isSome = true ∧
              env.fs.existsF ((optConfigPathOf opts).getD "") = true) →
          p ≠ "" →
          env.fs.existsF (pathJoin p "package.json") = false →
          env.fs.existsF (pathJoin p JSLINTRC) = false →
          dirname p ≠ p →
          (∀ pf, specNearestFile env.fs.existsF (p.length + 1) (dirname p) "package.json"
              = some pf →
            ((readJsonFile env.fs pf).getField "jslintConfig").truthy = true →
            readOptions env cp opts p =
              some ((readJsonFile env.fs pf).getField "jslintConfig")) ∧
          ((specNearestFile env.fs.existsF (p.length + 1) (dirname p) "package.json" = none ∨
            (∃ pf, specNearestFile env.fs.existsF (p.length + 1) (dirname p) "package.json"
                = some pf ∧
              ((readJsonFile env.fs pf).getField "jslintConfig").truthy = false)) →
            (∀ cf, specNearestFile env.fs.existsF (p.length + 1) (dirname p) JSLINTRC
                = some cf →
              readOptions env cp opts p =
                (readJSLintFile env.fs (rcFuel env.fs) cf).map Prod.fst) ∧
            (specNearestFile env.fs.existsF (p.length + 1) (dirname p) JSLINTRC = none →
              (∀ hm, env.home = some hm → hm ≠ "" →
                env.fs.existsF (pathJoin hm JSLINTRC) = true →
                readOptions env cp opts p =
                  (readJSLintFile env.fs (rcFuel env.fs) (pathJoin hm JSLINTRC)).map
                    Prod.fst) ∧
              ((env.home = none ∨ env.home = some "" ∨
                (∃ hm, env.home = some hm ∧
                  env.fs.existsF (pathJoin hm JSLINTRC) = false)) →
                readOptions env cp opts p = some opts))))) := by
  intro env cp opts p
  constructor
  · intro h1 h2
    rw [readOptions, if_pos ⟨h1, h2⟩]
  intro hb1
  constructor
  · intro ht c hc hcx
    rw [readOptions, if_neg hb1, if_pos ⟨ht, by rw [hc]; exact rfl, by rw [hc]; exact hcx⟩, hc]
    rfl
  intro hb2 hp hnp hnc hroot
  have hro : readOptions env cp opts p = readOptionsSearch env opts p := by
    rw [readOptions, if_neg hb1, if_neg hb2]
  have hpkg : locateFile env.fs.existsF (locFuel p) p "package.json" =
      specNearestFile env.fs.existsF (p.length + 1) (dirname p) "package.json" := by
    rw [show locFuel p = (p.length + 1) + 1 from rfl, locateFile,
      if_neg (by rw [hnp]; exact Bool.false_ne_true), if_neg hroot]
    exact locateFile_eq_specNearest _ _ _ _
  have hconf : locateFile env.fs.existsF (locFuel p) p JSLINTRC =
      specNearestFile env.fs.existsF (p.length + 1) (dirname p) JSLINTRC := by
    rw [show locFuel p = (p.length + 1) + 1 from rfl, locateFile,
      if_neg (by rw [hnc]; exact Bool.false_ne_true), if_neg hroot]
    exact locateFile_eq_specNearest _ _ _ _
  constructor
  · intro pf hpf htruthy
    rw [hro, readOptionsSearch]
    simp [if_neg hp, hpkg, hpf, htruthy]
  intro hnopkg
  constructor
  · intro cf hcf
    rw [hro, readOptionsSearch]
    rcases hnopkg with hnone | ⟨pf, hpf, hfalse⟩
    · simp [if_neg hp, hpkg, hnone, hconf, hcf]
    · simp [if_neg hp, hpkg, hpf, hfalse, hconf, hcf]
  intro hcfnone
  constructor
  · intro hm hhome hhm hhx
    rw [hro, readOptionsSearch]
    rcases hnopkg with hnone | ⟨pf, hpf, hfalse⟩
    · simp [if_neg hp, hpkg, hnone, hconf, hcfnone, hhome, hhm, hhx]
    · simp [if_neg hp, hpkg, hpf, hfalse, hconf, hcfnone, hhome, hhm, hhx]
  · intro hh
    rw [hro, readOptionsSearch]
    rcases hnopkg with hnone | ⟨pf, hpf, hfalse⟩ <;>
      rcases hh with hh | hh | ⟨hm, hh, hhx⟩
    · simp [if_neg hp, hpkg, hnone, hconf, hcfnone, hh]
    · simp [if_neg hp, hpkg, hnone, hconf, hcfnone, hh, strTruthy]
    · simp [if_neg hp, hpkg, hnone, hconf, hcfnone, hh, hhx]
    · simp [if_neg hp, hpkg, hpf, hfalse, hconf, hcfnone, hh]
    · simp [if_neg hp, hpkg, hpf, hfalse, hconf, hcfnone, hh, strTruthy]
    · simp [if_neg hp, hpkg, hpf, hfalse, hconf, hcfnone, hh, hhx]

/-- Witness for C5: under `fxEnvConfigured` the explicitly configured
path `/c.conf` exists, so resolution returns its parsed content as the
sole source. -/
theorem c5_witness :
    readOptions fxEnvConfigured (some "/c.conf") JSVal.undef "/f.js" =
      some (readJsonFile fxEnvConfigured.fs ((some "/c.conf").getD "")) :=
  (c5_priority_order fxEnvConfigured (some "/c.conf") JSVal.undef "/f.js").1
    (by decide) (by rfl)

/-- The rest returned by a successful string match is no longer than the
input. -/
theorem strBody_len (q : Char) :
    ∀ (cs : List Char) (content rest : List Char),
      strBody q cs = some (content, rest) → rest.length ≤ cs.length := by
  intro cs
  induction cs using strBody.induct q with
  | case1 =>
    intro content rest h
    exact absurd h (by simp [strBody])
  | case2 t =>
    intro content rest h
    rw [strBody.eq_def] at h
    simp at h
    rw [← h.2]
    simp
  | case3 hq =>
    intro content rest h
    rw [strBody.eq_def] at h
    simp [hq] at h
  | case4 c2 r2 hor hq =>
    intro content rest h
    rw [strBody.eq_def] at h
    simp [hq, hor] at h
  | case5 c2 r2 hnor hq ih =>
    intro content rest h
    rw [strBody.eq_def] at h
    simp only [if_neg hq, if_neg hnor] at h
    cases hs : strBody q r2 with
    | none => rw [hs] at h; simp at h
    | some pr =>
      rw [hs] at h
      simp at h
      have hrec := ih pr.1 pr.2 (by rw [hs])
      rw [← h.2]
      simp only [List.length_cons]
      omega
  | case6 c r hq hb ih =>
    intro content rest h
    rw [strBody.eq_def] at h
    simp only [if_neg hq, if_neg hb] at h
    cases hs : strBody q r with
    | none => rw [hs] at h; simp at h
    | some pr =>
      rw [hs] at h
      simp at h
      have hrec := ih pr.1 pr.2 (by rw [hs])
      rw [← h.2]
      simp only [List.length_cons]
      omega

/-- The rest returned by a successful block-comment match is no longer
than the input. -/
theorem blockBody_len :
    ∀ (cs rest : List Char), blockBody cs = some rest → rest.length ≤ cs.length := by
  intro cs
  induction cs with
  | nil => intro rest h; exact absurd h (by simp [blockBody])
  | cons c r ih =>
    intro rest h
    rw [blockBody] at h
    by_cases h1 : c = '*' ∧ r.head? = some '/'
    · rw [if_pos h1] at h
      simp only [Option.some.injEq] at h
      rw [← h]
      have : r.tail.length ≤ r.length := by
        cases r <;> simp
      simp only [List.length_cons]
      omega
    · rw [if_neg h1] at h
      by_cases h2 : c = '\r' ∧ r.head? ≠ some '\n'
      · rw [if_pos h2] at h
        exact absurd h (by simp)
      · rw [if_neg h2] at h
        have := ih rest h
        simp only [List.length_cons]
        omega

/-- The rest returned by a successful line-comment match is no longer
than the input. -/
theorem lineBody_len :
    ∀ (cs term rest : List Char), lineBody cs = some (term, rest) → rest.length ≤ cs.length := by
  intro cs
  induction cs with
  | nil =>
    intro term rest h
    simp only [lineBody, Option.some.injEq, Prod.mk.injEq] at h
    rw [← h.2]
  | cons c r ih =>
    intro term rest h
    rw [lineBody] at h
    by_cases h1 : c = '\n'
    · rw [if_pos h1] at h
      simp only [Option.some.injEq, Prod.mk.injEq] at h
      rw [← h.2]
      simp
    · rw [if_neg h1] at h
      by_cases h2 : c = '\r'
      · rw [if_pos h2] at h
        by_cases h3 : r.head? = some '\n'
        · rw [if_pos h3] at h
          simp only [Option.some.injEq, Prod.mk.injEq] at h
          rw [← h.2]
          have : r.tail.length ≤ r.length := by
            cases r <;> simp
          simp only [List.length_cons]
          omega
        · rw [if_neg h3] at h
          exact absurd h (by simp)
      · rw [if_neg h2] at h
        have := ih term rest h
        simp only [List.length_cons]
        omega

/-- `scan` ignores its fuel on the empty input. -/
theorem scan_nil : ∀ f, scan f [] = [] := by
  intro f
  cases f <;> rfl

/-- Fuel irrelevance for `scan`: any two sufficient fuels scan alike. -/
theorem scan_mono :
    ∀ (f : Nat) (cs : List Char) (g : Nat), cs.length ≤ f → cs.length ≤ g →
      scan f cs = scan g cs := by
  intro f
  induction f with
  | zero =>
    intro cs g hf hg
    have hnil : cs = [] := List.eq_nil_of_length_eq_zero (Nat.le_zero.mp hf)
    subst hnil
    rw [scan_nil, scan_nil]
  | succ f ih =>
    intro cs g hf hg
    cases cs with
    | nil => rw [scan_nil, scan_nil]
    | cons c rest =>
      cases g with
      | zero => simp at hg
      | succ g =>
        have hrf : rest.length ≤ f := by simp at hf; omega
        have hrg : rest.length ≤ g := by simp at hg; omega
        simp only [scan]
        split_ifs with h1 h2 h3
        · cases hs : strBody c rest with
          | none =>
            show c :: scan f rest = c :: scan g rest
            rw [ih rest g hrf hrg]
          | some pr =>
            rcases pr with ⟨content, r2⟩
            have hlen := strBody_len c rest content r2 hs
            show c :: (content ++ c :: scan f r2) = c :: (content ++ c :: scan g r2)
            rw [ih r2 g (Nat.le_trans hlen hrf) (Nat.le_trans hlen hrg)]
        · cases hb : blockBody rest.tail with
          | none =>
            show c :: scan f rest = c :: scan g rest
            rw [ih rest g hrf hrg]
          | some r3 =>
            have htail : rest.tail.length ≤ rest.length := by
              cases rest <;> simp
            have hlen := blockBody_len rest.tail r3 hb
            show scan f r3 = scan g r3
            rw [ih r3 g (Nat.le_trans hlen (Nat.le_trans htail hrf))
              (Nat.le_trans hlen (Nat.le_trans htail hrg))]
        · cases hl : lineBody (rest.dropWhile (fun x => x = '/')) with
          | none =>
            show c :: scan f rest = c :: scan g rest
            rw [ih rest g hrf hrg]
          | some pr =>
            rcases pr with ⟨term, r3⟩
            have hdw : (rest.dropWhile (fun x => x = '/')).length ≤ rest.length :=
              (List.dropWhile_sublist _).length_le
            have hlen := lineBody_len _ term r3 hl
            show term ++ scan f r3 = term ++ scan g r3
            rw [ih r3 g (Nat.le_trans hlen (Nat.le_trans hdw hrf))
              (Nat.le_trans hlen (Nat.le_trans hdw hrg))]
        · rw [ih rest g hrf hrg]

/-- A run of leading slashes ends at the first non-slash character. -/
theorem dropWhile_slash_append (body t : List Char) (d : Char) (hd : d ≠ '/') :
    (body ++ d :: t).dropWhile (fun x => x = '/')
      = body.dropWhile (fun x => x = '/') ++ d :: t := by
  induction body with
  | nil => simp [List.dropWhile_cons, hd]
  | cons c bs ih =>
    by_cases hc : c = '/'
    · subst hc
      simp only [List.cons_append, List.dropWhile_cons]
      simp [ih]
    · simp [List.dropWhile_cons, hc]

/-- A line-comment body free of line terminators runs to the next `\n`. -/
theorem lineBody_plain (body t : List Char) (h : ∀ c ∈ body, c ≠ '\n' ∧ c ≠ '\r') :
    lineBody (body ++ '\n' :: t) = some (['\n'], t) := by
  induction body with
  | nil =>
    rw [List.nil_append, lineBody]
    simp
  | cons c bs ih =>
    have hc := h c (List.mem_cons_self _ _)
    rw [List.cons_append, lineBody, if_neg hc.1, if_neg hc.2]
    exact ih (fun x hx => h x (List.mem_cons_of_mem _ hx))

/-- As `lineBody_plain`, ending in `\r\n`. -/
theorem lineBody_plain_crlf (body t : List Char) (h : ∀ c ∈ body, c ≠ '\n' ∧ c ≠ '\r') :
    lineBody (body ++ '\r' :: '\n' :: t) = some (['\r', '\n'], t) := by
  induction body with
  | nil =>
    rw [List.nil_append, lineBody]
    simp
  | cons c bs ih =>
    have hc := h c (List.mem_cons_self _ _)
    rw [List.cons_append, lineBody, if_neg hc.1, if_neg hc.2]
    exact ih (fun x hx => h x (List.mem_cons_of_mem _ hx))

/-- A block-comment body free of `*` and `\r` runs to the closing `*/`. -/
theorem blockBody_plain (body t : List Char) (h : ∀ c ∈ body, c ≠ '*' ∧ c ≠ '\r') :
    blockBody (body ++ '*' :: '/' :: t) = some t := by
  induction body with
  | nil =>
    rw [List.nil_append, blockBody]
    simp
  | cons c bs ih =>
    have hc := h c (List.mem_cons_self _ _)
    rw [List.cons_append, blockBody, if_neg (fun hco => hc.1 hco.1),
      if_neg (fun hco => hc.2 hco.1)]
    exact ih (fun x hx => h x (List.mem_cons_of_mem _ hx))

/-- A string body free of quotes and backslashes runs to the closing
quote. -/
theorem strBody_plain (q : Char) (s t : List Char) (h : ∀ c ∈ s, c ≠ q ∧ c ≠ '\\') :
    strBody q (s ++ q :: t) = some (s, t) := by
  induction s with
  | nil =>
    rw [List.nil_append, strBody.eq_def]
    simp
  | cons c ss ih =>
    have hc := h c (List.mem_cons_self _ _)
    rw [List.cons_append, strBody.eq_def]
    simp only [if_neg hc.1, if_neg hc.2]
    rw [ih (fun x hx => h x (List.mem_cons_of_mem _ hx))]
    rfl

/-- A line comment with a terminator-free body is replaced by its closing
newline, the following text scanned unchanged. -/
theorem stripComments_line (body t : List Char) (h : ∀ c ∈ body, c ≠ '\n' ∧ c ≠ '\r') :
    stripComments ⟨'/' :: '/' :: (body ++ '\n' :: t)⟩ = "\n" ++ stripComments ⟨t⟩ := by
  show String.mk (scan (('/' :: '/' :: (body ++ '\n' :: t)).length)
    ('/' :: '/' :: (body ++ '\n' :: t))) = "\n" ++ stripComments ⟨t⟩
  rw [List.length_cons, scan]
  rw [if_neg (by decide : ¬(('/' : Char) = '"' ∨ ('/' : Char) = '\''))]
  rw [if_neg (by simp : ¬(('/' : Char) = '/' ∧
    ('/' :: (body ++ '\n' :: t)).head? = some '*'))]
  rw [if_pos (⟨rfl, rfl⟩ : ('/' : Char) = '/' ∧
    ('/' :: (body ++ '\n' :: t)).head? = some '/')]
  have e2 : (('/' :: (body ++ '\n' :: t)).dropWhile (fun x => x = '/'))
      = body.dropWhile (fun x => x = '/') ++ '\n' :: t := by
    rw [List.dropWhile_cons, if_pos (by simp)]
    exact dropWhile_slash_append body t '\n' (by decide)
  rw [e2, lineBody_plain (body.dropWhile (fun x => x = '/')) t
    (fun x hx => h x ((List.dropWhile_sublist _).subset hx))]
  show String.mk (['\n'] ++ scan (('/' :: (body ++ '\n' :: t)).length) t)
    = "\n" ++ stripComments ⟨t⟩
  rw [scan_mono (('/' :: (body ++ '\n' :: t)).length) t t.length (by simp; omega) (Nat.le_refl _)]
  rfl

/-- As `stripComments_line` for a comment closed by `\r\n`: the carriage
return is preserved with the newline. -/
theorem stripComments_line_crlf (body t : List Char)
    (h : ∀ c ∈ body, c ≠ '\n' ∧ c ≠ '\r') :
    stripComments ⟨'/' :: '/' :: (body ++ '\r' :: '\n' :: t)⟩ = "\r\n" ++ stripComments ⟨t⟩ := by
  show String.mk (scan (('/' :: '/' :: (body ++ '\r' :: '\n' :: t)).length)
    ('/' :: '/' :: (body ++ '\r' :: '\n' :: t))) = "\r\n" ++ stripComments ⟨t⟩
  rw [List.length_cons, scan]
  rw [if_neg (by decide : ¬(('/' : Char) = '"' ∨ ('/' : Char) = '\''))]
  rw [if_neg (by simp : ¬(('/' : Char) = '/' ∧
    ('/' :: (body ++ '\r' :: '\n' :: t)).head? = some '*'))]
  rw [if_pos (⟨rfl, rfl⟩ : ('/' : Char) = '/' ∧
    ('/' :: (body ++ '\r' :: '\n' :: t)).head? = some '/')]
  have e2 : (('/' :: (body ++ '\r' :: '\n' :: t)).dropWhile (fun x => x = '/'))
      = body.dropWhile (fun x => x = '/') ++ '\r' :: '\n' :: t := by
    rw [List.dropWhile_cons, if_pos (by simp)]
    exact dropWhile_slash_append body ('\n' :: t) '\r' (by decide)
  rw [e2, lineBody_plain_crlf (body.dropWhile (fun x => x = '/')) t
    (fun x hx => h x ((List.dropWhile_sublist _).subset hx))]
  show String.mk (['\r', '\n'] ++ scan (('/' :: (body ++ '\r' :: '\n' :: t)).length) t)
    = "\r\n" ++ stripComments ⟨t⟩
  rw [scan_mono (('/' :: (body ++ '\r' :: '\n' :: t)).length) t t.length (by simp; omega)
    (Nat.le_refl _)]
  rfl

/-- A block comment with a `*`-free, `\r`-free body is removed entirely,
the following text scanned unchanged. -/
theorem stripComments_block (body t : List Char) (h : ∀ c ∈ body, c ≠ '*' ∧ c ≠ '\r') :
    stripComments ⟨'/' :: '*' :: (body ++ '*' :: '/' :: t)⟩ = stripComments ⟨t⟩ := by
  show String.mk (scan (('/' :: '*' :: (body ++ '*' :: '/' :: t)).length)
    ('/' :: '*' :: (body ++ '*' :: '/' :: t))) = stripComments ⟨t⟩
  rw [List.length_cons, scan]
  rw [if_neg (by decide : ¬(('/' : Char) = '"' ∨ ('/' : Char) = '\''))]
  rw [if_pos (⟨rfl, rfl⟩ : ('/' : Char) = '/' ∧
    ('*' :: (body ++ '*' :: '/' :: t)).head? = some '*')]
  show String.mk (match blockBody (body ++ '*' :: '/' :: t) with
    | some r3 => scan (('*' :: (body ++ '*' :: '/' :: t)).length) r3
    | none => '/' :: scan (('*' :: (body ++ '*' :: '/' :: t)).length)
        ('*' :: (body ++ '*' :: '/' :: t))) = stripComments ⟨t⟩
  rw [blockBody_plain body t h]
  show String.mk (scan (('*' :: (body ++ '*' :: '/' :: t)).length) t) = stripComments ⟨t⟩
  rw [scan_mono (('*' :: (body ++ '*' :: '/' :: t)).length) t t.length (by simp; omega)
    (Nat.le_refl _)]
  rfl

/-- A double-quoted string with a quote-free, backslash-free body passes
through verbatim — its content (which may contain `//` or `/*`) is never
treated as a comment — and the following text is scanned unchanged. -/
theorem stripComments_string (s t : List Char) (h : ∀ c ∈ s, c ≠ '"' ∧ c ≠ '\\') :
    stripComments ⟨'"' :: (s ++ '"' :: t)⟩
      = String.mk ('"' :: (s ++ ['"'])) ++ stripComments ⟨t⟩ := by
  show String.mk (scan (('"' :: (s ++ '"' :: t)).length) ('"' :: (s ++ '"' :: t)))
    = String.mk ('"' :: (s ++ ['"'])) ++ stripComments ⟨t⟩
  rw [List.length_cons, scan]
  rw [if_pos (Or.inl rfl : ('"' : Char) = '"' ∨ ('"' : Char) = '\'')]
  rw [strBody_plain '"' s t h]
  show String.mk ('"' :: (s ++ '"' :: scan ((s ++ '"' :: t).length) t))
    = String.mk ('"' :: (s ++ ['"'])) ++ stripComments ⟨t⟩
  rw [scan_mono ((s ++ '"' :: t).length) t t.length (by simp; omega) (Nat.le_refl _)]
  show String.mk ('"' :: (s ++ '"' :: scan t.length t))
    = String.mk (('"' :: (s ++ ['"'])) ++ scan t.length t)
  exact congrArg String.mk (by simp)

/-- C4: `stripComments` removes block and line comments while never
treating comment delimiters inside single- or double-quoted strings as
comments — the example text strips to a form whose JSON parse is
`a: 1, b: "http://x"` even though the string value contains `//` — and a
line comment ending in a newline is replaced by exactly that newline
(with a preceding carriage return kept as `\r\n`), so the line positions
of all following text are unchanged. -/
theorem c4_stripComments_spec :
    (stripComments fxRelaxedJson = fxStrippedJson) ∧
    (jsonParseFlat fxStrippedJson =
      some (JSVal.obj [("a", JSVal.num 1), ("b", JSVal.str "http://x")])) ∧
    (∀ body t : List Char, (∀ c ∈ body, c ≠ '\n' ∧ c ≠ '\r') →
      stripComments ⟨'/' :: '/' :: (body ++ '\n' :: t)⟩ = "\n" ++ stripComments ⟨t⟩) ∧
    (∀ body t : List Char, (∀ c ∈ body, c ≠ '\n' ∧ c ≠ '\r') →
      stripComments ⟨'/' :: '/' :: (body ++ '\r' :: '\n' :: t)⟩
        = "\r\n" ++ stripComments ⟨t⟩) ∧
    (∀ body t : List Char, (∀ c ∈ body, c ≠ '*' ∧ c ≠ '\r') →
      stripComments ⟨'/' :: '*' :: (body ++ '*' :: '/' :: t)⟩ = stripComments ⟨t⟩) ∧
    (∀ s t : List Char, (∀ c ∈ s, c ≠ '"' ∧ c ≠ '\\') →
      stripComments ⟨'"' :: (s ++ '"' :: t)⟩
        = String.mk ('"' :: (s ++ ['"'])) ++ stripComments ⟨t⟩) :=
  ⟨rfl, rfl, stripComments_line, stripComments_line_crlf, stripComments_block,
   stripComments_string⟩

/-- Witness for C4: a concrete line comment collapses to its newline with
the following text intact, and a concrete string containing `//` passes
through verbatim. -/
theorem c4_witness :
    stripComments ⟨'/' :: '/' :: (['a'] ++ '\n' :: ['x'])⟩ = "\n" ++ stripComments ⟨['x']⟩ ∧
    stripComments ⟨'"' :: (['/', '/'] ++ '"' :: ['x'])⟩
      = String.mk ('"' :: (['/', '/'] ++ ['"'])) ++ stripComments ⟨['x']⟩ :=
  ⟨c4_stripComments_spec.2.2.1 ['a'] ['x'] (by decide),
   c4_stripComments_spec.2.2.2.2.2 ['/', '/'] ['x'] (by decide)⟩
